import Mathlib

/-
Verification of the check engine of the goreportcard repository
(src/check/utils.go), as a shallow embedding.

Strings are modelled as lists of characters (Str), external effects
(file contents, the wc -l line count, the child process stdout stream,
its exit status) as an explicit environment record (Env), and the
filesystem touched by RenameFiles and RevertFiles as a map from paths
to optional contents.  Go panics (index out of range) are modelled as
an explicit constructor, a Go error return as an Option or a dedicated
constructor.
-/

namespace Grc

/-- Strings, modelled as lists of characters. -/
abbrev Str := List Char

/-! ## Go string primitives used by the source file -/

/-- Model of strings.HasPrefix p s as a computation on character lists:
startsWithL p s is true when p is an initial segment of s. -/
def startsWithL : Str → Str → Bool
  | [], _ => true
  | _ :: _, [] => false
  | c :: cs, x :: xs => c = x && startsWithL cs xs

/-- Model of strings.HasSuffix: endsWithL suf s is true when suf is a final
segment of s. -/
def endsWithL (suf s : Str) : Bool :=
  startsWithL suf.reverse s.reverse

/-- Model of strings.TrimPrefix: drop pre from the front of s when it is
there, otherwise return s unchanged. -/
def trimPre (pre s : Str) : Str :=
  if startsWithL pre s then s.drop pre.length else s

/-- Model of strings.Contains: containsSub needle s is true when needle
occurs inside s. -/
def containsSub (needle : Str) : Str → Bool
  | [] => startsWithL needle []
  | c :: cs => startsWithL needle (c :: cs) || containsSub needle cs

/-- Split s at the first occurrence of sep, the separator removed.
Returns none when sep does not occur. -/
def breakC (sep : Char) : Str → Option (Str × Str)
  | [] => none
  | c :: cs =>
    if c = sep then some ([], cs)
    else (breakC sep cs).map (fun p => (c :: p.1, p.2))

/-- Split s at the first occurrence of sep, the separator kept at the end
of the left part.  Returns none when sep does not occur. -/
def breakAfterC (sep : Char) : Str → Option (Str × Str)
  | [] => none
  | c :: cs =>
    if c = sep then some ([c], cs)
    else (breakAfterC sep cs).map (fun p => (c :: p.1, p.2))

/-- Model of strings.Split(s, sep) for a one-character separator. -/
def splitOnC (sep : Char) : Str → List Str
  | [] => [[]]
  | c :: cs =>
    match splitOnC sep cs with
    | [] => [[]]
    | h :: t => if c = sep then [] :: h :: t else (c :: h) :: t

/-- Model of strings.SplitN(s, sep, 2): at most two parts, separator
removed, the second part left unsplit. -/
def splitN2 (sep : Char) (s : Str) : List Str :=
  match breakC sep s with
  | none => [s]
  | some (a, b) => [a, b]

/-- Model of strings.SplitAfterN(s, sep, 3): at most three parts, each
part but the last keeping its trailing separator. -/
def splitAfter3 (sep : Char) (s : Str) : List Str :=
  match breakAfterC sep s with
  | none => [s]
  | some (a, r) =>
    match breakAfterC sep r with
    | none => [a, r]
    | some (b, r2) => [a, b, r2]

/-- Model of strings.Join(parts, sep). -/
def joinSep (sep : Str) : List Str → Str
  | [] => []
  | [x] => x
  | x :: y :: xs => x ++ sep ++ joinSep sep (y :: xs)

/-- Decimal digit accumulation used by the strconv.Atoi model. -/
def digitsAux (acc : Nat) : Str → Option Nat
  | [] => some acc
  | c :: cs =>
    if '0' ≤ c ∧ c ≤ '9' then digitsAux (acc * 10 + (c.toNat - '0'.toNat)) cs
    else none

/-- A non-empty all-digit string evaluated as a natural number. -/
def parseDigits : Str → Option Nat
  | [] => none
  | c :: cs => digitsAux 0 (c :: cs)

/-- Model of strconv.Atoi: an optional sign followed by at least one
decimal digit; anything else is a parse failure (none).  The Go original
also fails on 64-bit overflow, which no claim exercises. -/
def atoi : Str → Option Int
  | [] => none
  | '-' :: rest => (parseDigits rest).map (fun n => -(n : Int))
  | '+' :: rest => (parseDigits rest).map (fun n => (n : Int))
  | s => (parseDigits s).map (fun n => (n : Int))

/-- Model of filepath.Ext scanning from the right: the characters after
the last dot, in reverse order (none when there is no dot). -/
def extRev : Str → Option Str
  | [] => none
  | c :: cs => if c = '.' then some [] else (extRev cs).map (fun l => c :: l)

/-- Model of filepath.Ext on a base file name: the suffix of name starting
at its final dot, or the empty string when name has no dot. -/
def fileExt (name : Str) : Str :=
  match extRev name.reverse with
  | none => []
  | some l => '.' :: l.reverse

/-- Model of filepath.Base for the clean slash-separated paths produced by
the directory walk: the last slash-separated component. -/
def baseName (fp : Str) : Str :=
  (splitOnC '/' fp).getLastD []

/-! ## Configuration constants (src/check/utils.go lines 17-21) -/

def skipDirs : List Str := ["Godeps".data, "vendor".data, "third_party".data]

def skipSuffixes : List Str :=
  [".pb.go".data, ".pb.gw.go".data, ".generated.go".data,
   "bindata.go".data, "_string.go".data]

def skipFirstLines : List Str :=
  ["code generated".data, "generated".data, "autogenerated".data,
   "@generated".data, "code autogenerated".data, "auto-generated".data]

/-- Comment openers recognized by autoGenerated (src/check/utils.go:129). -/
def commentStyles : List Str :=
  ["// ".data, "//".data, "/* ".data, "/*".data]

/-- addSkipDirs appends one --skip flag per excluded directory
(src/check/utils.go:23-28). -/
def addSkipDirs (params : List Str) : List Str :=
  params ++ skipDirs.map (fun dir => "--skip=".data ++ dir)

/-! ## External environment -/

/-- Exit outcome of cmd.Wait (src/check/utils.go:259): success, an
ExitError carrying a wait status, or some other process-level error. -/
inductive WaitRes
  | ok
  | exit (status : Int)
  | other
deriving DecidableEq

/-- The effectful surroundings of one run: first lines of files (none
models an open error), whole file contents (none models a read error),
the in-process formatter (none models a format failure), the external
wc -l line count (none models its failure), the lines yielded by the
child process stdout scanner, whether the scanner itself failed, whether
the stdout pipe or the process start failed, and the process exit
outcome. -/
structure Env where
  firstLine : Str → Option Str
  readFile : Str → Option Str
  formatSource : Str → Option Str
  lineCount : Str → Option Int
  output : List Str
  scanErr : Bool
  pipeErr : Bool
  startErr : Bool
  waitRes : WaitRes

/-! ## autoGenerated (src/check/utils.go:115-138) -/

/-- autoGenerated reads the first line of the file at fp, lowercases it
and looks for a comment opener immediately followed by a generated-file
marker phrase.  An open error is logged and reported as false
(src/check/utils.go:117-121). -/
def autoGenerated (env : Env) (fp : Str) : Bool :=
  match env.firstLine fp with
  | none => false
  | some l0 =>
    let line := l0.map Char.toLower
    skipFirstLines.any fun skip =>
      commentStyles.any fun cst =>
        startsWithL cst line && startsWithL skip (line.drop cst.length)

/-! ## GoFiles (src/check/utils.go:30-71) -/

/-- One entry of the walk over the directory tree: its path, whether it
is a directory, and whether visiting it reported a filesystem error. -/
structure WalkEntry where
  fp : Str
  isDir : Bool
  err : Bool
deriving DecidableEq

/-- The skip-directory test of the visit function: the path contains an
excluded directory name between two slashes (src/check/utils.go:34-38). -/
def inSkipDir (fp : Str) : Bool :=
  skipDirs.any fun skip => containsSub ('/' :: skip ++ ['/']) fp

/-- Classification of one walk entry by the visit closure of GoFiles:
some true means appended to filenames, some false appended to skipped,
none ignored (src/check/utils.go:33-66). -/
def classify (env : Env) (e : WalkEntry) : Option Bool :=
  if inSkipDir e.fp then none
  else if e.err then none
  else if e.isDir then none
  else
    let name := baseName e.fp
    if skipSuffixes.any (fun skip => endsWithL skip name) then some false
    else if fileExt name ≠ ".go".data then none
    else if autoGenerated env e.fp then some false
    else some true

/-- GoFiles folds the walk entries through the visit closure, producing
the eligible file list and the skipped file list in visit order. -/
def GoFiles (env : Env) : List WalkEntry → List Str × List Str
  | [] => ([], [])
  | e :: es =>
    let rest := GoFiles env es
    match classify env e with
    | some true => (e.fp :: rest.1, rest.2)
    | some false => (rest.1, e.fp :: rest.2)
    | none => rest

/-! ## Data model (src/check/utils.go:140-153) -/

/-- Error holds the line number and the message parsed from one report
line. -/
structure Error where
  lineNumber : Int
  errorString : Str
deriving DecidableEq

/-- FileSummary groups the parsed issues of one reported file. -/
structure FileSummary where
  filename : Str
  fileURL : Str
  errors : List Error
deriving DecidableEq

/-! ## FileSummary.AddError (src/check/utils.go:155-171) -/

/-- Outcome of AddError: a Go index-out-of-range panic, a returned parse
error, or the summary extended with one issue. -/
inductive AddErrorRes
  | panics
  | fails
  | ok (fs : FileSummary)
deriving DecidableEq

/-- AddError splits the line at its first colon, takes the third
colon-kept field of the remainder as the message (an out-of-range index,
hence a panic, when the remainder has fewer than two colons; the panic
also covers a line with no colon at all, where s gets only one part),
and parses the first colon-free field of the remainder as the line
number, a failure there being returned as an error. -/
def FileSummary.AddError (fs : FileSummary) (out : Str) : AddErrorRes :=
  match splitN2 ':' out with
  | [_, s1] =>
    match (splitAfter3 ':' s1).get? 2 with
    | none => .panics
    | some msg =>
      match atoi ((splitOnC ':' s1).headD []) with
      | none => .fails
      | some ln => .ok ⟨fs.filename, fs.fileURL, fs.errors ++ [⟨ln, msg⟩]⟩
  | _ => .panics

/-! ## fileURL (src/check/utils.go:173-191) -/

/-- fileURL maps a staging directory plus a file path to a browsable
source location, or to the empty string for unrecognized layouts. -/
def fileURL (dir filename : Str) : Str :=
  let base := trimPre "repos/src/".data dir
  if startsWithL "golang.org/x/".data base then
    let pkg := if 3 ≤ (splitOnC '/' base).length
      then (splitOnC '/' base).getD 2 [] else []
    "https://github.com/golang/".data ++ pkg ++ "/blob/master".data ++
      trimPre ('/' :: base) filename
  else if startsWithL "github.com/".data base then
    let base2 := if (splitOnC '/' base).length = 4
      then joinSep ['/'] ((splitOnC '/' base).take 3) else base
    "https://".data ++ base2 ++ "/blob/master".data ++
      trimPre ('/' :: base2) filename
  else []

/-! ## GoTool (src/check/utils.go:193-287) -/

/-- The fsMap of GoTool, as an association list from normalized filename
to FileSummary.  Go iterates its map in a nondeterministic order; the
association list fixes insertion order, and every statement proved below
is insensitive to that choice except where it says otherwise. -/
abbrev FsMap := List (Str × FileSummary)

/-- Go map read with zero value on a missing key. -/
def lookupMap (m : FsMap) (k : Str) : FileSummary :=
  match m.find? (fun kv => kv.1 = k) with
  | some kv => kv.2
  | none => ⟨[], [], []⟩

/-- Go map write: replace in place, or append a fresh key at the end. -/
def updateMap (m : FsMap) (k : Str) (v : FileSummary) : FsMap :=
  match m with
  | [] => [(k, v)]
  | kv :: rest => if kv.1 = k then (k, v) :: rest else kv :: updateMap rest k v

/-- The summaries held by the map, in insertion order. -/
def mapValues (m : FsMap) : List FileSummary := m.map (fun kv => kv.2)

/-- Outcome of processing output lines: a panic inside AddError, a parse
error aborting the run, or the accumulated map. -/
inductive LoopRes
  | panicked
  | parseFailed
  | next (m : FsMap)
deriving DecidableEq

/-- The body of GoTool run on one line after the skip filters passed:
look up or create the summary and append the parsed issue
(src/check/utils.go:232-249). -/
def goToolHandle (dir : Str) (m : FsMap) (text filename : Str) :
    LoopRes :=
  let fu := fileURL dir filename
  let fs0 := lookupMap m filename
  let fs1 :=
    if fs0.filename = [] then
      let fname :=
        if startsWithL "/github.com".data filename then
          let sp := splitOnC '/' filename
          if 3 < sp.length then joinSep ['/'] (sp.drop 3) else filename
        else filename
      (⟨fname, fu, fs0.errors⟩ : FileSummary)
    else fs0
  match fs1.AddError text with
  | .panics => .panicked
  | .fails => .parseFailed
  | .ok fs2 => .next (updateMap m filename fs2)

/-- One iteration of the scan loop of GoTool: extract the path before the
first colon, strip the staging root, re-apply the suffix and
generated-file exclusions, then handle the line
(src/check/utils.go:218-250). -/
def goToolStep (env : Env) (dir : Str) (m : FsMap) (text : Str) : LoopRes :=
  let filename := trimPre "repos/src".data ((splitOnC ':' text).headD [])
  if skipSuffixes.any (fun skip => endsWithL skip filename) then .next m
  else if autoGenerated env ("repos/src".data ++ filename) then .next m
  else goToolHandle dir m text filename

/-- The scan loop of GoTool over the stdout lines. -/
def goToolLoop (env : Env) (dir : Str) (m : FsMap) : List Str → LoopRes
  | [] => .next m
  | t :: ts =>
    match goToolStep env dir m t with
    | .panicked => .panicked
    | .parseFailed => .parseFailed
    | .next m2 => goToolLoop env dir m2 ts

/-- Error taxonomy of a run, naming which step failed. -/
inductive RunErr
  | pipeFail
  | startFail
  | parseFail
  | scanFail
  | waitFail
  | lineCountFail
  | readFail
  | fmtFail
deriving DecidableEq

/-- Result of GoTool or GoFmtNative: either the whole program panicked,
or the triple (score, summaries, optional error) was returned.  The
score is modelled as a rational; Go computes the same arithmetic in
float64 and every value a claim touches is exactly representable. -/
inductive RunOutcome
  | panicked
  | returned (score : ℚ) (summaries : List FileSummary) (err : Option RunErr)
deriving DecidableEq

/-- The error count used by single-file scoring: the error count of the
first gathered summary, zero when there is none
(src/check/utils.go:278-281). -/
def firstErrors : List FileSummary → Int
  | [] => 0
  | f0 :: _ => f0.errors.length

/-- The scoring tail of GoTool (src/check/utils.go:272-287).  Single-file
mode divides by the external line count and subtracts the error count of
the first gathered summary, whichever file it names; directory mode
divides the count of clean files by the count of supplied files. -/
def goToolScore (env : Env) (filenames : List Str)
    (failed : List FileSummary) : RunOutcome :=
  if filenames.length = 1 then
    match env.lineCount (filenames.headD []) with
    | none => .returned 0 failed (some .lineCountFail)
    | some lc =>
      .returned (((lc - firstErrors failed : Int) : ℚ) / ((lc : Int) : ℚ))
        failed none
  else
    .returned
      ((((filenames.length : Int) - (failed.length : Int)) : ℚ) /
        ((filenames.length : Int) : ℚ))
      failed none

/-- GoTool: slicing command[1:] panics on an empty command vector; a
stdout-pipe or start failure aborts with an empty result; the scan loop
runs over the stream; a scanner error returns no summaries; an
ExitError with status other than 1 returns the gathered summaries
alongside the error, while status 1, success, and any non-ExitError wait
failure all fall through to scoring (src/check/utils.go:195-287). -/
def GoTool (dir : Str) (filenames command : List Str) (env : Env) :
    RunOutcome :=
  if command = [] then .panicked
  else if env.pipeErr then .returned 0 [] (some .pipeFail)
  else if env.startErr then .returned 0 [] (some .startFail)
  else
    match goToolLoop env dir [] env.output with
    | .panicked => .panicked
    | .parseFailed => .returned 0 [] (some .parseFail)
    | .next m =>
      if env.scanErr then .returned 0 [] (some .scanFail)
      else
        let failed := mapValues m
        match env.waitRes with
        | .exit s =>
          if s ≠ 1 then .returned 0 failed (some .waitFail)
          else goToolScore env filenames failed
        | _ => goToolScore env filenames failed

/-! ## GoFmtNative (src/check/utils.go:289-328) -/

/-- Result of the GoFmtNative loop: an aborting error or the list of
summaries of unformatted files. -/
inductive FmtRes
  | failed (e : RunErr)
  | ok (l : List FileSummary)
deriving DecidableEq

/-- The per-file loop of GoFmtNative.  The suffix check of the source
(src/check/utils.go:293-297) is dead code: its continue statement binds
to the inner range loop over skipSuffixes, so it skips nothing, and the
model therefore applies no suffix filter here.  A read or format failure
aborts the whole batch; an unformatted file appends one summary with a
single synthetic issue at line 1. -/
def goFmtLoop (env : Env) (dir : Str) : List Str → FmtRes
  | [] => .ok []
  | f :: rest =>
    if autoGenerated env f then goFmtLoop env dir rest
    else
      match env.readFile f with
      | none => .failed .readFail
      | some b =>
        match env.formatSource b with
        | none => .failed .fmtFail
        | some g =>
          if b ≠ g then
            let filename := trimPre "repos/src".data f
            let fname :=
              if startsWithL "/github.com".data filename then
                let sp := splitOnC '/' filename
                if 3 < sp.length then joinSep ['/'] (sp.drop 3) else filename
              else filename
            let fu := fileURL dir (trimPre "repos/src".data f)
            match goFmtLoop env dir rest with
            | .failed e => .failed e
            | .ok l =>
              .ok (⟨fname, fu, [⟨1, "file is not gofmted".data⟩]⟩ :: l)
          else goFmtLoop env dir rest

/-- GoFmtNative runs the formatting check in process and scores it as a
per-file pass rate over the supplied list. -/
def GoFmtNative (dir : Str) (filenames : List Str) (env : Env) : RunOutcome :=
  match goFmtLoop env dir filenames with
  | .failed e => .returned 0 [] (some e)
  | .ok failed =>
    .returned
      ((((filenames.length : Int) - (failed.length : Int)) : ℚ) /
        ((filenames.length : Int) : ℚ))
      failed none

/-! ## RenameFiles and RevertFiles (src/check/utils.go:73-98) -/

/-- The filesystem as seen by os.Rename: a map from paths to optional
contents. -/
abbrev Fs := Str → Option Nat

/-- The backup suffix appended by RenameFiles. -/
def bk : Str := ".grc.bk".data

/-- Model of os.Rename(src, dst): fails (returning the filesystem
unchanged and false) when src does not exist, otherwise moves the
contents of src to dst, overwriting dst. -/
def renameOp (fs : Fs) (src dst : Str) : Fs × Bool :=
  match fs src with
  | some c =>
    ((fun p => if p = dst then some c else if p = src then none else fs p),
      true)
  | none => (fs, false)

/-- RenameFiles appends the backup suffix to each listed path in order.
A failure is recorded but the remaining files are still attempted; the
returned flags record per-position success, refining the last-error
return value of the Go original. -/
def RenameFiles (fs : Fs) : List Str → Fs × List Bool
  | [] => (fs, [])
  | n :: ns =>
    let r := renameOp fs n (n ++ bk)
    let rest := RenameFiles r.1 ns
    (rest.1, r.2 :: rest.2)

/-- RevertFiles removes the backup suffix from each listed path in
order, with the same best-effort behavior as RenameFiles. -/
def RevertFiles (fs : Fs) : List Str → Fs × List Bool
  | [] => (fs, [])
  | n :: ns =>
    let r := renameOp fs (n ++ bk) n
    let rest := RevertFiles r.1 ns
    (rest.1, r.2 :: rest.2)

/-- Total number of issues attached to summaries naming the given file. -/
def issuesFor (l : List FileSummary) (name : Str) : Nat :=
  (l.filter (fun s => s.filename = name)).foldl
    (fun a s => a + s.errors.length) 0

/-- The error component of a returned run outcome. -/
def outcomeErr : RunOutcome → Option RunErr
  | .panicked => none
  | .returned _ _ e => e

/-! ## Concrete environments used by the claim checks -/

/-- A first line that matches no generated-file marker. -/
def plainLine : Str := "package main".data

/-- GoFmtNative on one suffix-excluded, unformatted file. -/
def envC1 : Env :=
  ⟨fun _ => some plainLine, fun _ => some "x".data, fun _ => some "y".data,
   fun _ => none, [], false, false, false, .ok⟩

/-- GoTool with one output line that has too few colon fields. -/
def envC2 : Env :=
  ⟨fun _ => some plainLine, fun _ => none, fun _ => none, fun _ => none,
   ["/a.go:12:5".data], false, false, false, .exit 1⟩

/-- GoTool with one output line whose line-number field is not numeric. -/
def envC2w : Env :=
  ⟨fun _ => some plainLine, fun _ => none, fun _ => none, fun _ => none,
   ["/a.go:x:1: m".data], false, false, false, .exit 1⟩

/-- GoTool whose wait fails with a non-ExitError failure after one
reported issue. -/
def envC4 : Env :=
  ⟨fun _ => some plainLine, fun _ => none, fun _ => none, fun _ => none,
   ["/a.go:1:1: boom".data], false, false, false, .other⟩

/-- The map gathered from the single output line of envC4. -/
def mC4 : FsMap :=
  [("/a.go".data, ⟨"/a.go".data, [], [⟨1, " boom".data⟩]⟩)]

/-- Like envC4, but the wait outcome is an ExitError with status 2. -/
def envC4b : Env :=
  ⟨fun _ => some plainLine, fun _ => none, fun _ => none, fun _ => none,
   ["/a.go:1:1: boom".data], false, false, false, .exit 2⟩

/-- Single-file run whose output names a different file three times. -/
def envC5 : Env :=
  ⟨fun _ => some plainLine, fun _ => none, fun _ => none, fun _ => some 100,
   ["/b.go:1:1: x".data, "/b.go:2:1: y".data, "/b.go:3:1: z".data],
   false, false, false, .exit 1⟩

/-- Single-file run, 100 lines, three issues on the listed file. -/
def envC5b : Env :=
  ⟨fun _ => some plainLine, fun _ => none, fun _ => none, fun _ => some 100,
   ["/a.go:10:1: a".data, "/a.go:20:2: b".data, "/a.go:30:3: c".data],
   false, false, false, .exit 1⟩

/-- Single-file run, 2 lines, three issues on the listed file. -/
def envC5c : Env :=
  ⟨fun _ => some plainLine, fun _ => none, fun _ => none, fun _ => some 2,
   ["/a.go:1:1: a".data, "/a.go:1:2: b".data, "/a.go:2:1: c".data],
   false, false, false, .exit 1⟩

/-- Ten supplied files for the directory-mode instance. -/
def tenFiles : List Str :=
  ["/f0.go".data, "/f1.go".data, "/f2.go".data, "/f3.go".data, "/f4.go".data,
   "/f5.go".data, "/f6.go".data, "/f7.go".data, "/f8.go".data, "/f9.go".data]

/-- Directory-mode run where two of the ten files carry issues, one of
them twice. -/
def envC6 : Env :=
  ⟨fun _ => some plainLine, fun _ => none, fun _ => none, fun _ => none,
   ["/f0.go:1:1: a".data, "/f0.go:2:1: b".data, "/f3.go:5:2: c".data],
   false, false, false, .exit 1⟩

/-- A run with no output lines and the findings exit code. -/
def envC6w : Env :=
  ⟨fun _ => some plainLine, fun _ => none, fun _ => none, fun _ => none,
   [], false, false, false, .exit 1⟩

/-- Directory-mode run whose output names three files, none of them
among the two supplied ones. -/
def envC9 : Env :=
  ⟨fun _ => some plainLine, fun _ => none, fun _ => none, fun _ => none,
   ["/c.go:1:1: a".data, "/d.go:1:1: b".data, "/e.go:1:1: c".data],
   false, false, false, .exit 1⟩

/-- An environment where no file can be opened for its first line. -/
def envC10 : Env :=
  ⟨fun _ => none, fun _ => none, fun _ => none, fun _ => none,
   [], false, false, false, .ok⟩

/-- Walk environment: one generated file, one unreadable file, the rest
plain. -/
def envC8 : Env :=
  ⟨fun fp =>
    if fp = "/d/g.go".data then
      some "// Code generated by tool; DO NOT EDIT.".data
    else if fp = "/d/u.go".data then none
    else some plainLine,
   fun _ => none, fun _ => none, fun _ => none, [], false, false, false, .ok⟩

/-- Walk entries: the root directory, a plain file, a suffix-excluded
file, a vendored file, a generated file, an unreadable file, and a
non-Go file. -/
def entriesC8 : List WalkEntry :=
  [⟨"/d".data, true, false⟩, ⟨"/d/a.go".data, false, false⟩,
   ⟨"/d/b.pb.go".data, false, false⟩, ⟨"/d/vendor/c.go".data, false, false⟩,
   ⟨"/d/g.go".data, false, false⟩, ⟨"/d/u.go".data, false, false⟩,
   ⟨"/d/readme.md".data, false, false⟩]

/-- Initial filesystem for the rename counterexample: both the path a
and its backup name exist. -/
def fs0x : Fs := fun p =>
  if p = "a".data then some 0
  else if p = "a.grc.bk".data then some 1
  else none

/-- A batch in which the second path is the first path with the backup
suffix appended. -/
def namesX : List Str := ["a".data, "a.grc.bk".data]

/-- Initial filesystem for the rename witness: two unrelated paths. -/
def fsW : Fs := fun p =>
  if p = "a".data then some 0
  else if p = "b".data then some 1
  else none

/-- A collision-free batch. -/
def namesW : List Str := ["a".data, "b".data]

/-- The map gathered from the output of envC5. -/
def mC5 : FsMap :=
  [("/b.go".data,
    ⟨"/b.go".data, [], [⟨1, " x".data⟩, ⟨2, " y".data⟩, ⟨3, " z".data⟩]⟩)]

/-- The map gathered from the output of envC5b. -/
def mC5b : FsMap :=
  [("/a.go".data,
    ⟨"/a.go".data, [], [⟨10, " a".data⟩, ⟨20, " b".data⟩, ⟨30, " c".data⟩]⟩)]

/-- The map gathered from the output of envC5c. -/
def mC5c : FsMap :=
  [("/a.go".data,
    ⟨"/a.go".data, [], [⟨1, " a".data⟩, ⟨1, " b".data⟩, ⟨2, " c".data⟩]⟩)]

/-- The map gathered from the output of envC6. -/
def mC6 : FsMap :=
  [("/f0.go".data, ⟨"/f0.go".data, [], [⟨1, " a".data⟩, ⟨2, " b".data⟩]⟩),
   ("/f3.go".data, ⟨"/f3.go".data, [], [⟨5, " c".data⟩]⟩)]

/-- The map gathered from the output of envC9. -/
def mC9 : FsMap :=
  [("/c.go".data, ⟨"/c.go".data, [], [⟨1, " a".data⟩]⟩),
   ("/d.go".data, ⟨"/d.go".data, [], [⟨1, " b".data⟩]⟩),
   ("/e.go".data, ⟨"/e.go".data, [], [⟨1, " c".data⟩]⟩)]

/-! ## Claim checks -/

/-- Helper: a run whose stream loop ended in a gathered map and whose
wait outcome is not a non-1 ExitError proceeds to the scoring tail. -/
theorem goTool_toScore (dir : Str) (filenames command : List Str) (env : Env)
    (m : FsMap) (hc : command ≠ []) (hp : env.pipeErr = false)
    (hst : env.startErr = false)
    (hl : goToolLoop env dir [] env.output = .next m)
    (hsc : env.scanErr = false)
    (hw : env.waitRes = .exit 1 ∨ env.waitRes = .ok ∨ env.waitRes = .other) :
    GoTool dir filenames command env =
      goToolScore env filenames (mapValues m) := by
  unfold GoTool
  rw [if_neg hc]
  rw [hp, hst, hl, hsc]
  rcases hw with h | h | h <;> rw [h] <;> simp

/-- Helper: a run whose wait outcome is an ExitError with status other
than 1 returns the gathered summaries alongside the wait error. -/
theorem goTool_waitFail (dir : Str) (filenames command : List Str) (env : Env)
    (m : FsMap) (s : Int) (hc : command ≠ []) (hp : env.pipeErr = false)
    (hst : env.startErr = false)
    (hl : goToolLoop env dir [] env.output = .next m)
    (hsc : env.scanErr = false)
    (hw : env.waitRes = .exit s) (hs : s ≠ 1) :
    GoTool dir filenames command env =
      .returned 0 (mapValues m) (some .waitFail) := by
  unfold GoTool
  rw [if_neg hc]
  rw [hp, hst, hl, hsc]
  rw [hw]
  simp [hs]

/-- Helper: the directory-mode scoring formula. -/
theorem goToolScore_dir (env : Env) (filenames : List Str)
    (failed : List FileSummary) (hn : filenames.length ≠ 1) :
    goToolScore env filenames failed =
      .returned
        ((((filenames.length : Int) - (failed.length : Int)) : ℚ) /
          ((filenames.length : Int) : ℚ))
        failed none := by
  unfold goToolScore
  rw [if_neg hn]

/-- Helper: the single-file scoring formula under a successful external
line count. -/
theorem goToolScore_single (env : Env) (f : Str) (failed : List FileSummary)
    (lc : Int) (hlc : env.lineCount f = some lc) :
    goToolScore env [f] failed =
      .returned (((lc - firstErrors failed : Int) : ℚ) / ((lc : Int) : ℚ))
        failed none := by
  unfold goToolScore
  simp [hlc]

/-- C1: the spec requires that a filename excluded by a configured suffix
never produces a FileSummary in either checker, yet GoFmtNative does
produce one for a suffix-excluded file: the continue of its suffix check
binds to the inner loop over the suffixes, so the check skips nothing.
The evaluation below runs GoFmtNative on a single file carrying the
excluded suffix .pb.go and obtains a FileSummary for it. -/
theorem C1_evaluation :
    endsWithL ".pb.go".data "/r/a.pb.go".data = true ∧
    GoFmtNative "d".data ["/r/a.pb.go".data] envC1 =
      .returned 0
        [⟨"/r/a.pb.go".data, [], [⟨1, "file is not gofmted".data⟩]⟩]
        none := by
  refine ⟨by decide, ?_⟩
  have h : goFmtLoop envC1 "d".data ["/r/a.pb.go".data] =
      .ok [⟨"/r/a.pb.go".data, [], [⟨1, "file is not gofmted".data⟩]⟩] := by
    decide
  unfold GoFmtNative
  rw [h]
  norm_num

/-- C2: refutation of the claim that a report line with fewer than the
required colon-separated fields yields an error value.  The line
/a.go:12:5 has only two colons; GoTool panics on it (index out of range
in AddError), it does not return an error. -/
theorem C2_counterexample :
    ("/a.go:12:5".data).count ':' ≤ 2 ∧
    GoTool "d".data ["/a.go".data] ["t".data] envC2 = .panicked := by
  decide

/-- C3: refutation of the exact message in the claim.  Parsing the line
pkg/file.go:42:7: unused variable x yields line number 42 but the
message keeps the space that follows the column separator, so it is not
the claimed string without the leading space. -/
theorem C3_counterexample :
    FileSummary.AddError ⟨[], [], []⟩
        "pkg/file.go:42:7: unused variable x".data =
      .ok ⟨[], [], [⟨42, " unused variable x".data⟩]⟩ ∧
    " unused variable x".data ≠ "unused variable x".data := by
  decide

/-- C3 amended: parsing pkg/file.go:42:7: unused variable x produces an
Issue with line number 42 and message exactly the text after the second
colon of the remainder, namely the string beginning with a space,
embedded separators preserved; the path is split off at the first colon
and the column field is discarded. -/
theorem C3_amended :
    FileSummary.AddError ⟨[], [], []⟩
        "pkg/file.go:42:7: unused variable x".data =
      .ok ⟨[], [], [⟨42, " unused variable x".data⟩]⟩ := by
  decide

/-- C4: refutation of the claim that every process-level failure makes
the run return an error.  When cmd.Wait fails with an error that is not
an ExitError, the type switch of GoTool matches nothing, the failure is
discarded, and the run returns its score with no error at all. -/
theorem C4_counterexample :
    envC4.waitRes = .other ∧
    GoTool "d".data ["/a.go".data, "/b.go".data] ["t".data] envC4 =
      .returned (1 / 2) [⟨"/a.go".data, [], [⟨1, " boom".data⟩]⟩] none := by
  refine ⟨rfl, ?_⟩
  rw [goTool_toScore "d".data _ _ envC4 mC4 (by decide) rfl rfl (by decide) rfl
    (Or.inr (Or.inr rfl))]
  rw [goToolScore_dir envC4 _ _ (by decide)]
  have hv : mapValues mC4 = [⟨"/a.go".data, [], [⟨1, " boom".data⟩]⟩] := by
    decide
  rw [hv]
  norm_num

/-- C5: refutation of the claim that the single-file score subtracts the
issue count of the listed file.  Here the listed file /a.go has zero
reported issues, yet the score subtracts the three issues of /b.go, the
first (and only) gathered summary, giving 97/100 instead of 1. -/
theorem C5_counterexample :
    GoTool "d".data ["/a.go".data] ["t".data] envC5 =
      .returned (97 / 100)
        [⟨"/b.go".data, [],
          [⟨1, " x".data⟩, ⟨2, " y".data⟩, ⟨3, " z".data⟩]⟩] none ∧
    issuesFor
        [⟨"/b.go".data, [],
          [⟨1, " x".data⟩, ⟨2, " y".data⟩, ⟨3, " z".data⟩]⟩]
        "/a.go".data = 0 ∧
    (97 / 100 : ℚ) ≠ ((100 : ℚ) - 0) / 100 := by
  refine ⟨?_, by decide, by norm_num⟩
  rw [goTool_toScore "d".data _ _ envC5 mC5 (by decide) rfl rfl (by decide) rfl
    (Or.inl rfl)]
  rw [goToolScore_single envC5 _ _ 100 rfl]
  have hv : mapValues mC5 =
      [⟨"/b.go".data, [], [⟨1, " x".data⟩, ⟨2, " y".data⟩, ⟨3, " z".data⟩]⟩] := by
    decide
  rw [hv]
  have he : firstErrors
      [⟨"/b.go".data, [], [⟨1, " x".data⟩, ⟨2, " y".data⟩, ⟨3, " z".data⟩]⟩]
      = 3 := by decide
  rw [he]
  norm_num

/-- C9: in directory mode the failing-file count comes from the distinct
filenames of the tool output, not from the supplied list: with two
supplied files and three distinct reported files the score is
(2 - 3) / 2 = -1/2, strictly negative, and none of the reported files
is a supplied one. -/
theorem C9_overcount :
    GoTool "d".data ["/a.go".data, "/b.go".data] ["t".data] envC9 =
      .returned (-(1 / 2))
        [⟨"/c.go".data, [], [⟨1, " a".data⟩]⟩,
         ⟨"/d.go".data, [], [⟨1, " b".data⟩]⟩,
         ⟨"/e.go".data, [], [⟨1, " c".data⟩]⟩] none ∧
    (-(1 / 2) : ℚ) < 0 ∧
    (∀ s ∈ [⟨"/c.go".data, [], [⟨1, " a".data⟩]⟩,
            ⟨"/d.go".data, [], [⟨1, " b".data⟩]⟩,
            (⟨"/e.go".data, [], [⟨1, " c".data⟩]⟩ : FileSummary)],
      s.filename ≠ "/a.go".data ∧ s.filename ≠ "/b.go".data) := by
  refine ⟨?_, by norm_num, by decide⟩
  rw [goTool_toScore "d".data _ _ envC9 mC9 (by decide) rfl rfl (by decide) rfl
    (Or.inl rfl)]
  rw [goToolScore_dir envC9 _ _ (by decide)]
  have hv : mapValues mC9 =
      [⟨"/c.go".data, [], [⟨1, " a".data⟩]⟩,
       ⟨"/d.go".data, [], [⟨1, " b".data⟩]⟩,
       ⟨"/e.go".data, [], [⟨1, " c".data⟩]⟩] := by decide
  rw [hv]
  norm_num

/-- Helper: breakC finds nothing when the separator is absent. -/
theorem breakC_eq_none (sep : Char) (s : Str) (h : sep ∉ s) :
    breakC sep s = none := by
  induction s with
  | nil => rfl
  | cons c cs ih =>
    simp only [List.mem_cons, not_or] at h
    simp [breakC, Ne.symm h.1, ih h.2]

/-- Helper: breakC splits at the first occurrence of the separator. -/
theorem breakC_append (sep : Char) (a b : Str) (h : sep ∉ a) :
    breakC sep (a ++ sep :: b) = some (a, b) := by
  induction a with
  | nil => simp [breakC]
  | cons c cs ih =>
    simp only [List.mem_cons, not_or] at h
    simp [breakC, Ne.symm h.1, ih h.2]

/-- Helper: a successful breakC decomposes its input. -/
theorem breakC_eq_some (sep : Char) :
    ∀ (s a b : Str), breakC sep s = some (a, b) →
      s = a ++ sep :: b ∧ sep ∉ a := by
  intro s
  induction s with
  | nil => intro a b h; exact Option.noConfusion h
  | cons c cs ih =>
    intro a b h
    by_cases hc : c = sep
    · simp only [breakC, if_pos hc, Option.some.injEq, Prod.mk.injEq] at h
      subst hc
      rw [← h.1, ← h.2]
      simp
    · simp only [breakC, if_neg hc] at h
      cases he : breakC sep cs with
      | none => rw [he] at h; exact Option.noConfusion h
      | some p =>
        obtain ⟨p1, p2⟩ := p
        rw [he] at h
        have h9 : c :: p1 = a ∧ p2 = b := by simpa using h
        obtain ⟨ha, hb⟩ := h9
        obtain ⟨hp, hmem⟩ := ih p1 p2 he
        subst ha; subst hb
        constructor
        · rw [hp]; simp
        · simp only [List.mem_cons, not_or]
          exact ⟨fun hcc => hc hcc.symm, hmem⟩

/-- Helper: breakAfterC finds nothing exactly when the separator is
absent. -/
theorem breakAfterC_none_iff (sep : Char) (s : Str) :
    breakAfterC sep s = none ↔ sep ∉ s := by
  induction s with
  | nil => simp [breakAfterC]
  | cons c cs ih =>
    by_cases hc : c = sep
    · subst hc; simp [breakAfterC]
    · simp [breakAfterC, hc, ih, Ne.symm hc]

/-- Helper: breakAfterC splits after the first occurrence of the
separator. -/
theorem breakAfterC_append (sep : Char) (a b : Str) (h : sep ∉ a) :
    breakAfterC sep (a ++ sep :: b) = some (a ++ [sep], b) := by
  induction a with
  | nil => simp [breakAfterC]
  | cons c cs ih =>
    simp only [List.mem_cons, not_or] at h
    simp [breakAfterC, Ne.symm h.1, ih h.2]

/-- Helper: a successful breakAfterC decomposes its input, the left part
ending with the separator. -/
theorem breakAfterC_eq_some (sep : Char) :
    ∀ (s a b : Str), breakAfterC sep s = some (a, b) →
      ∃ a0, a = a0 ++ [sep] ∧ s = a0 ++ sep :: b ∧ sep ∉ a0 := by
  intro s
  induction s with
  | nil => intro a b h; exact Option.noConfusion h
  | cons c cs ih =>
    intro a b h
    by_cases hc : c = sep
    · simp only [breakAfterC, if_pos hc, Option.some.injEq, Prod.mk.injEq] at h
      subst hc
      exact ⟨[], by rw [← h.1]; simp, by rw [← h.2]; simp, by simp⟩
    · simp only [breakAfterC, if_neg hc] at h
      cases he : breakAfterC sep cs with
      | none => rw [he] at h; exact Option.noConfusion h
      | some p =>
        obtain ⟨p1, p2⟩ := p
        rw [he] at h
        have h9 : c :: p1 = a ∧ p2 = b := by simpa using h
        obtain ⟨ha, hb⟩ := h9
        obtain ⟨a0, ha0, hcs, hmem⟩ := ih p1 p2 he
        subst ha; subst hb
        refine ⟨c :: a0, ?_, ?_, ?_⟩
        · rw [ha0]; simp
        · rw [hcs]; simp
        · simp only [List.mem_cons, not_or]
          exact ⟨fun hcc => hc hcc.symm, hmem⟩

/-- Helper: splitOnC never returns the empty list. -/
theorem splitOnC_ne_nil (sep : Char) (s : Str) : splitOnC sep s ≠ [] := by
  cases s with
  | nil => simp [splitOnC]
  | cons c cs =>
    cases h : splitOnC sep cs with
    | nil => simp [splitOnC, h]
    | cons x t =>
      simp only [splitOnC, h]
      split <;> simp

/-- Helper: splitOnC peels off the part before the first separator. -/
theorem splitOnC_append (sep : Char) (a b : Str) (h : sep ∉ a) :
    splitOnC sep (a ++ sep :: b) = a :: splitOnC sep b := by
  induction a with
  | nil =>
    obtain ⟨x, t, hx⟩ : ∃ x t, splitOnC sep b = x :: t := by
      cases hh : splitOnC sep b with
      | nil => exact absurd hh (splitOnC_ne_nil sep b)
      | cons x t => exact ⟨x, t, rfl⟩
    simp [splitOnC, hx]
  | cons c cs ih =>
    simp only [List.mem_cons, not_or] at h
    rw [List.cons_append]
    simp [splitOnC, ih h.2, Ne.symm h.1]

/-- Helper: a report line with at most two colons makes AddError index
out of range, a Go panic (src/check/utils.go:157-158). -/
theorem AddError_panics (fs : FileSummary) (s : Str) (h : s.count ':' ≤ 2) :
    fs.AddError s = .panics := by
  unfold FileSummary.AddError
  cases hb : breakC ':' s with
  | none => simp [splitN2, hb]
  | some p =>
    obtain ⟨hs, hmem⟩ := breakC_eq_some ':' s p.1 p.2 (by rw [hb])
    have hcount : p.2.count ':' ≤ 1 := by
      rw [hs] at h
      simp only [List.count_append, List.count_cons_self] at h
      omega
    simp only [splitN2, hb]
    cases hba : breakAfterC ':' p.2 with
    | none => simp [splitAfter3, hba]
    | some q =>
      obtain ⟨x0, hx0, hb2, hmem2⟩ := breakAfterC_eq_some ':' p.2 q.1 q.2
        (by rw [hba])
      have : q.2.count ':' = 0 := by
        rw [hb2] at hcount
        simp only [List.count_append, List.count_cons_self] at hcount
        omega
      have hq : breakAfterC ':' q.2 = none := by
        rw [breakAfterC_none_iff]
        exact List.count_eq_zero.mp this
      simp [splitAfter3, hba, hq]

/-- Helper: a line of the shape path:num:rest with a colon inside rest
but a non-numeric num makes AddError return the Atoi error
(src/check/utils.go:161-164). -/
theorem AddError_fails (fs : FileSummary) (path num rest : Str)
    (h1 : ':' ∉ path) (h2 : ':' ∉ num) (h3 : ':' ∈ rest)
    (h4 : atoi num = none) :
    fs.AddError (path ++ ':' :: (num ++ ':' :: rest)) = .fails := by
  obtain ⟨x, y, hxy⟩ : ∃ x y, breakAfterC ':' rest = some (x, y) := by
    cases hr : breakAfterC ':' rest with
    | none => exact absurd ((breakAfterC_none_iff ':' rest).mp hr) (by simp [h3])
    | some q => obtain ⟨qx, qy⟩ := q; exact ⟨qx, qy, rfl⟩
  simp only [FileSummary.AddError, splitN2, breakC_append _ _ _ h1,
    splitAfter3, breakAfterC_append _ _ _ h2, hxy,
    splitOnC_append ':' num rest h2, List.headD, h4]
  rfl

/-- C2 amended: a report line whose line-number field does not parse as
an integer yields an error value from AddError, and any such parse error
aborts the entire run with no partial summaries; but a line with fewer
than the required colon-separated fields (at most two colons) does not
yield an error value: it makes AddError index out of range, a panic that
crashes the run. -/
theorem C2_amended :
    (∀ (fs : FileSummary) (s : Str), s.count ':' ≤ 2 →
      fs.AddError s = .panics) ∧
    (∀ (fs : FileSummary) (path num rest : Str), ':' ∉ path → ':' ∉ num →
      ':' ∈ rest → atoi num = none →
      fs.AddError (path ++ ':' :: (num ++ ':' :: rest)) = .fails) ∧
    (∀ (dir : Str) (filenames command : List Str) (env : Env),
      command ≠ [] → env.pipeErr = false → env.startErr = false →
      goToolLoop env dir [] env.output = .parseFailed →
      GoTool dir filenames command env = .returned 0 [] (some .parseFail)) := by
  refine ⟨AddError_panics, AddError_fails, ?_⟩
  intro dir filenames command env hc hp hst hl
  unfold GoTool
  rw [if_neg hc, hp, hst, hl]
  simp

/-- C2 amended, witness: the three parts applied at concrete inputs: the
two-colon line a.go:1:2 panics, the line a.go:x:1: m returns the parse
error, and a run whose stream contains the latter line aborts with no
summaries. -/
theorem C2_amended_witness :
    FileSummary.AddError ⟨[], [], []⟩ "a.go:1:2".data = .panics ∧
    FileSummary.AddError ⟨[], [], []⟩
      ("a.go".data ++ ':' :: ("x".data ++ ':' :: "1: m".data)) = .fails ∧
    GoTool "d".data ["/a.go".data] ["t".data] envC2w =
      .returned 0 [] (some .parseFail) :=
  ⟨C2_amended.1 ⟨[], [], []⟩ "a.go:1:2".data (by decide),
   C2_amended.2.1 ⟨[], [], []⟩ "a.go".data "x".data "1: m".data
     (by decide) (by decide) (by decide) (by decide),
   C2_amended.2.2 "d".data ["/a.go".data] ["t".data] envC2w
     (by decide) rfl rfl (by decide)⟩

/-- C4 amended: after the stream is drained, exit status 1 is a normal
outcome and any other exit status returns the gathered summaries
alongside the wait error; but a process-level wait failure that is not
an exit-status error is silently discarded: the run proceeds to scoring
exactly as in the success case, and the scoring tail never reports a
wait error. -/
theorem C4_amended :
    (∀ (dir : Str) (filenames command : List Str) (env : Env) (m : FsMap)
      (s : Int), command ≠ [] → env.pipeErr = false → env.startErr = false →
      goToolLoop env dir [] env.output = .next m → env.scanErr = false →
      env.waitRes = .exit s → s ≠ 1 →
      GoTool dir filenames command env =
        .returned 0 (mapValues m) (some .waitFail)) ∧
    (∀ (dir : Str) (filenames command : List Str) (env : Env) (m : FsMap),
      command ≠ [] → env.pipeErr = false → env.startErr = false →
      goToolLoop env dir [] env.output = .next m → env.scanErr = false →
      (env.waitRes = .exit 1 ∨ env.waitRes = .ok ∨ env.waitRes = .other) →
      GoTool dir filenames command env =
        goToolScore env filenames (mapValues m)) ∧
    (∀ (env : Env) (filenames : List Str) (failed : List FileSummary),
      outcomeErr (goToolScore env filenames failed) ≠ some .waitFail) := by
  refine ⟨goTool_waitFail, goTool_toScore, ?_⟩
  intro env fns failed
  unfold goToolScore
  by_cases h : fns.length = 1
  · rw [if_pos h]
    cases hlc : env.lineCount (fns.headD []) <;> simp [outcomeErr]
  · rw [if_neg h]
    simp [outcomeErr]

/-- C4 amended, witness: with exit status 2 the gathered summary is
returned alongside the wait error; with a non-ExitError wait failure the
run scores as if nothing failed; and the scoring tail never reports a
wait error. -/
theorem C4_amended_witness :
    GoTool "d".data ["/a.go".data, "/b.go".data] ["t".data] envC4b =
      .returned 0 (mapValues mC4) (some .waitFail) ∧
    GoTool "d".data ["/a.go".data, "/b.go".data] ["t".data] envC4 =
      goToolScore envC4 ["/a.go".data, "/b.go".data] (mapValues mC4) ∧
    outcomeErr (goToolScore envC4 ["/a.go".data] []) ≠ some .waitFail :=
  ⟨C4_amended.1 "d".data ["/a.go".data, "/b.go".data] ["t".data] envC4b mC4 2
     (by decide) rfl rfl (by decide) rfl rfl (by decide),
   C4_amended.2.1 "d".data ["/a.go".data, "/b.go".data] ["t".data] envC4 mC4
     (by decide) rfl rfl (by decide) rfl (Or.inr (Or.inr rfl)),
   C4_amended.2.2 envC4 ["/a.go".data] []⟩

/-- C5 amended: in single-file mode the score is (line count minus the
error count of the first gathered summary, whichever file it names)
divided by the line count; when every reported line names the single
file this is the claimed per-file issue count.  A 100-line file with
exactly three issues on it scores 97/100, and when the issue count
exceeds the line count the score is negative. -/
theorem C5_amended :
    (∀ (dir : Str) (command : List Str) (env : Env) (f : Str) (m : FsMap)
      (lc : Int), command ≠ [] → env.pipeErr = false → env.startErr = false →
      goToolLoop env dir [] env.output = .next m → env.scanErr = false →
      (env.waitRes = .exit 1 ∨ env.waitRes = .ok) →
      env.lineCount f = some lc →
      GoTool dir [f] command env =
        .returned
          (((lc - firstErrors (mapValues m) : Int) : ℚ) / ((lc : Int) : ℚ))
          (mapValues m) none) ∧
    GoTool "d".data ["/a.go".data] ["t".data] envC5b =
      .returned (97 / 100) (mapValues mC5b) none ∧
    (GoTool "d".data ["/a.go".data] ["t".data] envC5c =
      .returned (-(1 / 2)) (mapValues mC5c) none ∧ (-(1 / 2) : ℚ) < 0) := by
  have hgen : ∀ (dir : Str) (command : List Str) (env : Env) (f : Str)
      (m : FsMap) (lc : Int), command ≠ [] → env.pipeErr = false →
      env.startErr = false → goToolLoop env dir [] env.output = .next m →
      env.scanErr = false → (env.waitRes = .exit 1 ∨ env.waitRes = .ok) →
      env.lineCount f = some lc →
      GoTool dir [f] command env =
        .returned
          (((lc - firstErrors (mapValues m) : Int) : ℚ) / ((lc : Int) : ℚ))
          (mapValues m) none := by
    intro dir command env f m lc hc hp hst hl hsc hw hlc
    rw [goTool_toScore dir [f] command env m hc hp hst hl hsc
      (hw.elim Or.inl (fun h => Or.inr (Or.inl h)))]
    exact goToolScore_single env f (mapValues m) lc hlc
  refine ⟨hgen, ?_, ?_, by norm_num⟩
  · rw [hgen "d".data ["t".data] envC5b "/a.go".data mC5b 100 (by decide) rfl
      rfl (by decide) rfl (Or.inl rfl) rfl]
    have hf : firstErrors (mapValues mC5b) = 3 := by decide
    rw [hf]
    norm_num
  · rw [hgen "d".data ["t".data] envC5c "/a.go".data mC5c 2 (by decide) rfl
      rfl (by decide) rfl (Or.inl rfl) rfl]
    have hf : firstErrors (mapValues mC5c) = 3 := by decide
    rw [hf]
    norm_num

/-- C5 amended, witness: the general single-file formula applied to the
run of envC5b. -/
theorem C5_amended_witness :
    GoTool "d".data ["/a.go".data] ["t".data] envC5b =
      .returned
        (((100 - firstErrors (mapValues mC5b) : Int) : ℚ) / ((100 : Int) : ℚ))
        (mapValues mC5b) none :=
  C5_amended.1 "d".data ["t".data] envC5b "/a.go".data mC5b 100 (by decide)
    rfl rfl (by decide) rfl (Or.inl rfl) rfl

/-- C6: in directory mode the score is the number of supplied files
minus the number of distinct failing files gathered from the output,
divided by the number of supplied files, independent of how many issues
each failing file has; ten supplied files with two failing ones (three
issues between them) score 8/10; and any run with a non-empty file list,
no output lines and a normal exit scores 1, provided the single-file
denominator is non-zero as the specification requires. -/
theorem C6_score :
    (∀ (dir : Str) (filenames command : List Str) (env : Env) (m : FsMap),
      command ≠ [] → env.pipeErr = false → env.startErr = false →
      goToolLoop env dir [] env.output = .next m → env.scanErr = false →
      (env.waitRes = .exit 1 ∨ env.waitRes = .ok) →
      filenames.length ≠ 1 →
      GoTool dir filenames command env =
        .returned
          ((((filenames.length : Int) - ((mapValues m).length : Int)) : ℚ) /
            ((filenames.length : Int) : ℚ)) (mapValues m) none) ∧
    (GoTool "d".data tenFiles ["t".data] envC6 =
      .returned (8 / 10) (mapValues mC6) none ∧ (mapValues mC6).length = 2) ∧
    (∀ (dir : Str) (filenames command : List Str) (env : Env),
      command ≠ [] → env.pipeErr = false → env.startErr = false →
      env.output = [] → env.scanErr = false →
      (env.waitRes = .exit 1 ∨ env.waitRes = .ok) →
      filenames ≠ [] →
      (∀ f, filenames = [f] →
        ∃ lc : Int, env.lineCount f = some lc ∧ ((lc : Int) : ℚ) ≠ 0) →
      GoTool dir filenames command env = .returned 1 [] none) := by
  have hgen : ∀ (dir : Str) (filenames command : List Str) (env : Env)
      (m : FsMap), command ≠ [] → env.pipeErr = false → env.startErr = false →
      goToolLoop env dir [] env.output = .next m → env.scanErr = false →
      (env.waitRes = .exit 1 ∨ env.waitRes = .ok) →
      filenames.length ≠ 1 →
      GoTool dir filenames command env =
        .returned
          ((((filenames.length : Int) - ((mapValues m).length : Int)) : ℚ) /
            ((filenames.length : Int) : ℚ)) (mapValues m) none := by
    intro dir filenames command env m hc hp hst hl hsc hw hn
    rw [goTool_toScore dir filenames command env m hc hp hst hl hsc
      (hw.elim Or.inl (fun h => Or.inr (Or.inl h)))]
    exact goToolScore_dir env filenames (mapValues m) hn
  refine ⟨hgen, ⟨?_, by decide⟩, ?_⟩
  · rw [hgen "d".data tenFiles ["t".data] envC6 mC6 (by decide) rfl rfl
      (by decide) rfl (Or.inl rfl) (by decide)]
    have h1 : tenFiles.length = 10 := by decide
    have h2 : (mapValues mC6).length = 2 := by decide
    rw [h1, h2]
    norm_num
  · intro dir filenames command env hc hp hst hout hsc hw hne hsingle
    have hl : goToolLoop env dir [] env.output = .next [] := by
      rw [hout]; rfl
    rw [goTool_toScore dir filenames command env [] hc hp hst hl hsc
      (hw.elim Or.inl (fun h => Or.inr (Or.inl h)))]
    by_cases h1 : filenames.length = 1
    · obtain ⟨f, hf⟩ := List.length_eq_one.mp h1
      obtain ⟨lc, hlc, hlcne⟩ := hsingle f hf
      subst hf
      rw [goToolScore_single env f (mapValues []) lc hlc]
      have h0 : firstErrors (mapValues []) = 0 := rfl
      rw [h0, sub_zero]
      rw [div_self hlcne]
      rfl
    · rw [goToolScore_dir env filenames (mapValues []) h1]
      have h0 : ((mapValues [] : List FileSummary).length : Int) = 0 := rfl
      rw [h0, Int.cast_zero, sub_zero]
      have hn : ((filenames.length : Int) : ℚ) ≠ 0 := by
        simp only [Int.cast_natCast, ne_eq, Nat.cast_eq_zero]
        exact fun h => hne (List.length_eq_zero.mp h)
      rw [div_self hn]
      rfl

/-- C6, witness: a two-file run with no output lines and exit status 1
scores exactly 1 with no summaries and no error. -/
theorem C6_score_witness :
    GoTool "d".data ["/a.go".data, "/b.go".data] ["t".data] envC6w =
      .returned 1 [] none :=
  C6_score.2.2 "d".data ["/a.go".data, "/b.go".data] ["t".data] envC6w
    (by decide) rfl rfl rfl rfl (Or.inl rfl) (by decide)
    (by intro f h; simp at h)

/-- Helper: startsWithL is the prefix relation. -/
theorem startsWithL_iff (p : Str) :
    ∀ s : Str, startsWithL p s = true ↔ ∃ t, s = p ++ t := by
  induction p with
  | nil => intro s; simp [startsWithL]
  | cons c cs ih =>
    intro s
    cases s with
    | nil => simp [startsWithL]
    | cons x xs =>
      simp only [startsWithL, Bool.and_eq_true, decide_eq_true_eq, ih]
      constructor
      · rintro ⟨hcx, t, ht⟩
        subst hcx
        exact ⟨t, by rw [ht]; rfl⟩
      · rintro ⟨t, ht⟩
        injection ht with hx hxs
        exact ⟨hx.symm, t, hxs⟩

/-- Helper: endsWithL is the suffix relation. -/
theorem endsWithL_iff (suf s : Str) :
    endsWithL suf s = true ↔ ∃ t, s = t ++ suf := by
  unfold endsWithL
  rw [startsWithL_iff]
  constructor
  · rintro ⟨t, ht⟩
    refine ⟨t.reverse, ?_⟩
    have h2 := congrArg List.reverse ht
    simpa using h2
  · rintro ⟨t, ht⟩
    exact ⟨t.reverse, by rw [ht]; simp⟩

/-- Helper: the extension of a name ending in .go is .go. -/
theorem fileExt_append_go (u : Str) :
    fileExt (u ++ ['.', 'g', 'o']) = ['.', 'g', 'o'] := by
  have h2 : extRev ((u ++ ['.', 'g', 'o']).reverse) = some ['o', 'g'] := by
    rw [List.reverse_append]
    simp [extRev]
  unfold fileExt
  rw [h2]
  rfl

/-- Helper: every configured excluded suffix ends in .go. -/
theorem skipSuffix_go (sk : Str) (h : sk ∈ skipSuffixes) :
    ∃ pre, sk = pre ++ ['.', 'g', 'o'] := by
  fin_cases h
  · exact ⟨".pb".data, by decide⟩
  · exact ⟨".pb.gw".data, by decide⟩
  · exact ⟨".generated".data, by decide⟩
  · exact ⟨"bindata".data, by decide⟩
  · exact ⟨"_string".data, by decide⟩

/-- Helper: a name matched by some excluded suffix has extension .go. -/
theorem ext_of_any_skipSuffix (name : Str)
    (h : skipSuffixes.any (fun skip => endsWithL skip name) = true) :
    fileExt name = ".go".data := by
  simp only [List.any_eq_true] at h
  obtain ⟨sk, hmem, hends⟩ := h
  obtain ⟨pre, hpre⟩ := skipSuffix_go sk hmem
  obtain ⟨t, ht⟩ := (endsWithL_iff sk name).mp hends
  have hgo : ".go".data = ['.', 'g', 'o'] := rfl
  rw [ht, hpre, ← List.append_assoc, hgo]
  exact fileExt_append_go (t ++ pre)

/-- Helper: a walk entry is classified (to either list) exactly when it
is an error-free regular .go file outside the excluded directories. -/
theorem classify_isSome_iff (env : Env) (e : WalkEntry) :
    (classify env e).isSome = true ↔
      (inSkipDir e.fp = false ∧ e.err = false ∧ e.isDir = false ∧
        fileExt (baseName e.fp) = ".go".data) := by
  unfold classify
  by_cases h1 : inSkipDir e.fp
  · simp [h1]
  · by_cases h2 : e.err
    · simp [h1, h2]
    · by_cases h3 : e.isDir
      · simp [h1, h2, h3]
      · by_cases h4 : skipSuffixes.any
            (fun skip => endsWithL skip (baseName e.fp)) = true
        · simp [h1, h2, h3, h4, ext_of_any_skipSuffix _ h4]
        · by_cases h5 : fileExt (baseName e.fp) = ".go".data
          · simp only [h1, h2, h3, h4, h5]
            by_cases h6 : autoGenerated env e.fp <;> simp [h1, h2, h3, h6]
          · simp [h1, h2, h3, h4, h5]

/-- Helper: membership in the eligible list of GoFiles. -/
theorem mem_GoFiles_fst (env : Env) (entries : List WalkEntry) (p : Str) :
    p ∈ (GoFiles env entries).1 ↔
      ∃ e, e ∈ entries ∧ e.fp = p ∧ classify env e = some true := by
  induction entries with
  | nil => simp [GoFiles]
  | cons e es ih =>
    cases hc : classify env e with
    | none =>
      simp only [GoFiles, hc, List.mem_cons, ih]
      constructor
      · rintro ⟨e9, he9, hfp, hcl⟩
        exact ⟨e9, Or.inr he9, hfp, hcl⟩
      · rintro ⟨e9, (rfl | he9), hfp, hcl⟩
        · rw [hc] at hcl; exact Option.noConfusion hcl
        · exact ⟨e9, he9, hfp, hcl⟩
    | some b =>
      cases b with
      | true =>
        simp only [GoFiles, hc, List.mem_cons, ih]
        constructor
        · rintro (rfl | ⟨e9, he9, hfp, hcl⟩)
          · exact ⟨e, Or.inl rfl, rfl, hc⟩
          · exact ⟨e9, Or.inr he9, hfp, hcl⟩
        · rintro ⟨e9, (rfl | he9), rfl, hcl⟩
          · exact Or.inl rfl
          · exact Or.inr ⟨e9, he9, rfl, hcl⟩
      | false =>
        simp only [GoFiles, hc, List.mem_cons, ih]
        constructor
        · rintro ⟨e9, he9, hfp, hcl⟩
          exact ⟨e9, Or.inr he9, hfp, hcl⟩
        · rintro ⟨e9, (rfl | he9), hfp, hcl⟩
          · rw [hc] at hcl
            exact Bool.noConfusion (Option.some.inj hcl)
          · exact ⟨e9, he9, hfp, hcl⟩

/-- Helper: membership in the skipped list of GoFiles. -/
theorem mem_GoFiles_snd (env : Env) (entries : List WalkEntry) (p : Str) :
    p ∈ (GoFiles env entries).2 ↔
      ∃ e, e ∈ entries ∧ e.fp = p ∧ classify env e = some false := by
  induction entries with
  | nil => simp [GoFiles]
  | cons e es ih =>
    cases hc : classify env e with
    | none =>
      simp only [GoFiles, hc, List.mem_cons, ih]
      constructor
      · rintro ⟨e9, he9, hfp, hcl⟩
        exact ⟨e9, Or.inr he9, hfp, hcl⟩
      · rintro ⟨e9, (rfl | he9), hfp, hcl⟩
        · rw [hc] at hcl; exact Option.noConfusion hcl
        · exact ⟨e9, he9, hfp, hcl⟩
    | some b =>
      cases b with
      | false =>
        simp only [GoFiles, hc, List.mem_cons, ih]
        constructor
        · rintro (rfl | ⟨e9, he9, hfp, hcl⟩)
          · exact ⟨e, Or.inl rfl, rfl, hc⟩
          · exact ⟨e9, Or.inr he9, hfp, hcl⟩
        · rintro ⟨e9, (rfl | he9), rfl, hcl⟩
          · exact Or.inl rfl
          · exact Or.inr ⟨e9, he9, rfl, hcl⟩
      | true =>
        simp only [GoFiles, hc, List.mem_cons, ih]
        constructor
        · rintro ⟨e9, he9, hfp, hcl⟩
          exact ⟨e9, Or.inr he9, hfp, hcl⟩
        · rintro ⟨e9, (rfl | he9), hfp, hcl⟩
          · rw [hc] at hcl
            exact Bool.noConfusion (Option.some.inj hcl)
          · exact ⟨e9, he9, hfp, hcl⟩

/-- C8: for a walk whose entries have pairwise distinct paths, the
eligible and skipped lists of GoFiles are disjoint, and their union is
exactly the set of error-free regular files with extension .go lying
outside the configured excluded directory names. -/
theorem C8_partition :
    ∀ (env : Env) (entries : List WalkEntry),
      (entries.map WalkEntry.fp).Nodup →
      (∀ p, ¬(p ∈ (GoFiles env entries).1 ∧ p ∈ (GoFiles env entries).2)) ∧
      (∀ p, (p ∈ (GoFiles env entries).1 ∨ p ∈ (GoFiles env entries).2) ↔
        ∃ e, e ∈ entries ∧ e.fp = p ∧ e.err = false ∧ e.isDir = false ∧
          inSkipDir e.fp = false ∧ fileExt (baseName e.fp) = ".go".data) := by
  intro env entries hnd
  constructor
  · rintro p ⟨h1, h2⟩
    obtain ⟨e1, he1, hf1, hc1⟩ := (mem_GoFiles_fst env entries p).mp h1
    obtain ⟨e2, he2, hf2, hc2⟩ := (mem_GoFiles_snd env entries p).mp h2
    have he : e1 = e2 :=
      List.inj_on_of_nodup_map hnd he1 he2 (hf1.trans hf2.symm)
    rw [he, hc2] at hc1
    exact Bool.noConfusion (Option.some.inj hc1)
  · intro p
    rw [mem_GoFiles_fst, mem_GoFiles_snd]
    constructor
    · rintro (⟨e, he, hfp, hcl⟩ | ⟨e, he, hfp, hcl⟩) <;>
      · refine ⟨e, he, hfp, ?_⟩
        have hs : (classify env e).isSome = true := by rw [hcl]; rfl
        obtain ⟨ha, hb, hc, hd⟩ := (classify_isSome_iff env e).mp hs
        exact ⟨hb, hc, ha, hd⟩
    · rintro ⟨e, he, hfp, herr, hdir, hskip, hext⟩
      have hs : (classify env e).isSome = true :=
        (classify_isSome_iff env e).mpr ⟨hskip, herr, hdir, hext⟩
      cases hcl : classify env e with
      | none => rw [hcl] at hs; exact absurd hs (by simp)
      | some b =>
        cases b with
        | true => exact Or.inl ⟨e, he, hfp, hcl⟩
        | false => exact Or.inr ⟨e, he, hfp, hcl⟩

/-- C8, witness: the partition applied to a concrete walk with distinct
paths; the plain file /d/a.go is not in both lists. -/
theorem C8_partition_witness :
    (entriesC8.map WalkEntry.fp).Nodup ∧
    ¬("/d/a.go".data ∈ (GoFiles envC8 entriesC8).1 ∧
      "/d/a.go".data ∈ (GoFiles envC8 entriesC8).2) :=
  ⟨by decide, (C8_partition envC8 entriesC8 (by decide)).1 "/d/a.go".data⟩

/-- C10: when a file cannot be opened to read its first line, the
generated-file detection returns false; discovery therefore classifies
such a matching-extension, non-excluded file as eligible; and the
parse-time re-filter of GoTool does not drop a report line naming it:
the step proceeds to the summary-building branch. -/
theorem C10_unreadable :
    ∀ (env : Env) (fp : Str), env.firstLine fp = none →
      autoGenerated env fp = false ∧
      (∀ (entries : List WalkEntry) (e : WalkEntry), e ∈ entries →
        e.fp = fp → e.err = false → e.isDir = false →
        inSkipDir fp = false →
        skipSuffixes.any (fun sk => endsWithL sk (baseName fp)) = false →
        fileExt (baseName fp) = ".go".data →
        fp ∈ (GoFiles env entries).1) ∧
      (∀ (dir : Str) (m : FsMap) (text f : Str),
        trimPre "repos/src".data ((splitOnC ':' text).headD []) = f →
        "repos/src".data ++ f = fp →
        skipSuffixes.any (fun sk => endsWithL sk f) = false →
        goToolStep env dir m text = goToolHandle dir m text f) := by
  intro env fp h
  have hag : autoGenerated env fp = false := by
    unfold autoGenerated
    rw [h]
  refine ⟨hag, ?_, ?_⟩
  · intro entries e he hfp herr hdir hskip hsuf hext
    rw [mem_GoFiles_fst]
    refine ⟨e, he, hfp, ?_⟩
    unfold classify
    rw [hfp]
    simp [hskip, herr, hdir, hsuf, hag, hext]
  · intro dir m text f hf hpf hsuf
    unfold goToolStep
    rw [hf]
    simp [hsuf, hpf, hag]

/-- C10, witness: with an unreadable file repos/src/u.go, detection
returns false, discovery lists it as eligible, and the scan step of
GoTool on a line naming it proceeds to the summary-building branch. -/
theorem C10_unreadable_witness :
    autoGenerated envC10 "repos/src/u.go".data = false ∧
    "repos/src/u.go".data ∈
      (GoFiles envC10 [⟨"repos/src/u.go".data, false, false⟩]).1 ∧
    goToolStep envC10 "d".data [] "/u.go:3:1: m".data =
      goToolHandle "d".data [] "/u.go:3:1: m".data "/u.go".data :=
  have h := C10_unreadable envC10 "repos/src/u.go".data rfl
  ⟨h.1,
   h.2.1 [⟨"repos/src/u.go".data, false, false⟩]
     ⟨"repos/src/u.go".data, false, false⟩ (by decide) rfl rfl rfl
     (by decide) (by decide) (by decide),
   h.2.2 "d".data [] "/u.go:3:1: m".data "/u.go".data (by decide) (by decide)
     (by decide)⟩

/-- C7: refutation of the unconditional round-trip claim.  In the batch
[a, a.grc.bk] every rename of the path a.grc.bk succeeds in both the
quarantine and the restore pass, yet its final contents are those that a
originally had, not its own: the quarantine of a overwrote it first. -/
theorem C7_counterexample :
    namesX.getD 1 [] = "a".data ++ bk ∧
    (RenameFiles fs0x namesX).2.getD 1 false = true ∧
    (RevertFiles (RenameFiles fs0x namesX).1 namesX).2.getD 1 false = true ∧
    (RevertFiles (RenameFiles fs0x namesX).1 namesX).1 ("a.grc.bk".data)
      = some 0 ∧
    fs0x "a.grc.bk".data = some 1 := by
  decide

/-- Helper: the backup suffix is not empty. -/
theorem bk_ne_nil : bk ≠ [] := by decide

/-- Helper: a path never equals itself with the backup suffix appended. -/
theorem ne_self_append_bk (p : Str) : p ≠ p ++ bk := by
  intro h
  have h2 := congrArg List.length h
  simp [bk] at h2

/-- Helper: appending the backup suffix is injective. -/
theorem append_bk_cancel {a b : Str} (h : a ++ bk = b ++ bk) : a = b :=
  List.append_cancel_right h

/-- Helper: the flag list of RenameFiles has one entry per path. -/
theorem RenameFiles_sndLen : ∀ (ns : List Str) (fs : Fs),
    (RenameFiles fs ns).2.length = ns.length := by
  intro ns
  induction ns with
  | nil => intro fs; rfl
  | cons n ns ih => intro fs; simp [RenameFiles, ih]

/-- Helper: RenameFiles over an appended batch splits into two passes. -/
theorem RenameFiles_append (xs ys : List Str) : ∀ (fs : Fs),
    RenameFiles fs (xs ++ ys) =
      ((RenameFiles (RenameFiles fs xs).1 ys).1,
       (RenameFiles fs xs).2 ++ (RenameFiles (RenameFiles fs xs).1 ys).2) := by
  induction xs with
  | nil => intro fs; simp [RenameFiles]
  | cons n ns ih => intro fs; simp [RenameFiles, ih]

/-- Helper: RevertFiles over an appended batch splits into two passes. -/
theorem RevertFiles_append (xs ys : List Str) : ∀ (fs : Fs),
    RevertFiles fs (xs ++ ys) =
      ((RevertFiles (RevertFiles fs xs).1 ys).1,
       (RevertFiles fs xs).2 ++ (RevertFiles (RevertFiles fs xs).1 ys).2) := by
  induction xs with
  | nil => intro fs; simp [RevertFiles]
  | cons n ns ih => intro fs; simp [RevertFiles, ih]

/-- Helper: getD of a list split at the length of its front part. -/
theorem getD_append_cons {α : Type} (xs : List α) (x : α) (ys : List α)
    (d : α) : (xs ++ x :: ys).getD xs.length d = x := by
  induction xs with
  | nil => rfl
  | cons a as ih => simpa using ih

/-- Helper: a list is its take, its element at i, and its drop. -/
theorem take_getD_drop {α : Type} :
    ∀ (l : List α) (i : Nat), i < l.length → ∀ d : α,
      l.take i ++ l.getD i d :: l.drop (i + 1) = l := by
  intro l
  induction l with
  | nil => intro i h; simp at h
  | cons a as ih =>
    intro i h d
    cases i with
    | zero => rfl
    | succ n =>
      show a :: (as.take n ++ as.getD n d :: as.drop (n + 1)) = a :: as
      rw [ih n (by simpa using h) d]

/-- Helper: during quarantine a missing path stays missing, provided it
is not the backup name of a later path. -/
theorem quarantine_keeps_none (p : Str) :
    ∀ (ns : List Str) (fs : Fs), (∀ n ∈ ns, p ≠ n ++ bk) → fs p = none →
      (RenameFiles fs ns).1 p = none := by
  intro ns
  induction ns with
  | nil => intro fs _ hp; exact hp
  | cons n ns ih =>
    intro fs hC hp
    simp only [RenameFiles]
    cases hn : fs n with
    | none =>
      simp only [renameOp, hn]
      exact ih fs (fun x hx => hC x (List.mem_cons_of_mem n hx)) hp
    | some c =>
      simp only [renameOp, hn]
      apply ih _ (fun x hx => hC x (List.mem_cons_of_mem n hx))
      have hpd : p ≠ n ++ bk := hC n (List.mem_cons_self n ns)
      have hpn : p ≠ n := fun h => by
        rw [h, hn] at hp; exact Option.noConfusion hp
      simp [hpd, hpn, hp]

/-- Helper: a path present after a quarantine pass was present, with the
same contents, before it. -/
theorem quarantine_reflects_some (p : Str) (c : Nat) :
    ∀ (ns : List Str) (fs : Fs), (∀ n ∈ ns, p ≠ n ++ bk) →
      (RenameFiles fs ns).1 p = some c → fs p = some c := by
  intro ns
  induction ns with
  | nil => intro fs _ h; exact h
  | cons n ns ih =>
    intro fs hC h
    simp only [RenameFiles] at h
    have htail : ∀ x ∈ ns, p ≠ x ++ bk :=
      fun x hx => hC x (List.mem_cons_of_mem n hx)
    cases hn : fs n with
    | none =>
      simp only [renameOp, hn] at h
      exact ih fs htail h
    | some cv =>
      simp only [renameOp, hn] at h
      have hpd : p ≠ n ++ bk := hC n (List.mem_cons_self n ns)
      by_cases hpn : p = n
      · exfalso
        have h0 : (fun q => if q = n ++ bk then some cv
            else if q = n then none else fs q) p = none := by
          simp [hpd, hpn, bk_ne_nil]
        have h9 := quarantine_keeps_none p ns
          (fun q => if q = n ++ bk then some cv
            else if q = n then none else fs q) htail h0
        rw [h9] at h
        exact Option.noConfusion h
      · have h1 := ih _ htail h
        simpa [hpd, hpn] using h1

/-- Helper: during quarantine, a missing path and its backup slot are
untouched by the renames of unrelated paths. -/
theorem quarantine_keeps_pair (p : Str) :
    ∀ (ns : List Str) (fs : Fs),
      (∀ n ∈ ns, p ≠ n ++ bk ∧ p ++ bk ≠ n) → fs p = none →
      (RenameFiles fs ns).1 p = none ∧
      (RenameFiles fs ns).1 (p ++ bk) = fs (p ++ bk) := by
  intro ns
  induction ns with
  | nil => intro fs _ hp; exact ⟨hp, rfl⟩
  | cons n ns ih =>
    intro fs hC hp
    simp only [RenameFiles]
    have htail : ∀ x ∈ ns, p ≠ x ++ bk ∧ p ++ bk ≠ x :=
      fun x hx => hC x (List.mem_cons_of_mem n hx)
    cases hn : fs n with
    | none =>
      simp only [renameOp, hn]
      exact ih fs htail hp
    | some c =>
      simp only [renameOp, hn]
      have h1 : p ≠ n ++ bk := (hC n (List.mem_cons_self n ns)).1
      have h2 : p ++ bk ≠ n := (hC n (List.mem_cons_self n ns)).2
      have hpn : p ≠ n := fun h => by
        rw [h, hn] at hp; exact Option.noConfusion hp
      have hfs0 : (fun q => if q = n ++ bk then some c
          else if q = n then none else fs q) p = none := by
        simp [h1, hpn, hp]
      obtain ⟨ha, hb⟩ := ih (fun q => if q = n ++ bk then some c
          else if q = n then none else fs q) htail hfs0
      refine ⟨ha, ?_⟩
      rw [hb]
      have h3 : p ++ bk ≠ n ++ bk := fun h => hpn (append_bk_cancel h)
      simp [h3, h2]

/-- Helper: during restore, an empty backup slot stays empty, provided
no listed path is that backup name. -/
theorem restore_keeps_bk_none (p : Str) :
    ∀ (ns : List Str) (fs : Fs), (∀ n ∈ ns, n ≠ p ++ bk) →
      fs (p ++ bk) = none → (RevertFiles fs ns).1 (p ++ bk) = none := by
  intro ns
  induction ns with
  | nil => intro fs _ hp; exact hp
  | cons n ns ih =>
    intro fs hC hp
    simp only [RevertFiles]
    have htail : ∀ x ∈ ns, x ≠ p ++ bk :=
      fun x hx => hC x (List.mem_cons_of_mem n hx)
    cases hn : fs (n ++ bk) with
    | none =>
      simp only [renameOp, hn]
      exact ih fs htail hp
    | some c =>
      simp only [renameOp, hn]
      apply ih (fun q => if q = n then some c
          else if q = n ++ bk then none else fs q) htail
      have h1 : p ++ bk ≠ n := fun h => hC n (List.mem_cons_self n ns) h.symm
      by_cases hq : p ++ bk = n ++ bk
      · simp [h1, hq, bk_ne_nil]
      · simp [h1, hq, hp]

/-- Helper: a full backup slot after a restore pass was full, with the
same contents, before it, and the restored path itself is untouched. -/
theorem restore_reflects (p : Str) (c : Nat) :
    ∀ (ns : List Str) (fs : Fs),
      (∀ n ∈ ns, p ≠ n ++ bk ∧ n ≠ p ++ bk) →
      (RevertFiles fs ns).1 (p ++ bk) = some c →
      fs (p ++ bk) = some c ∧ (RevertFiles fs ns).1 p = fs p := by
  intro ns
  induction ns with
  | nil => intro fs _ h; exact ⟨h, rfl⟩
  | cons n ns ih =>
    intro fs hC h
    simp only [RevertFiles] at h ⊢
    have htail : ∀ x ∈ ns, p ≠ x ++ bk ∧ x ≠ p ++ bk :=
      fun x hx => hC x (List.mem_cons_of_mem n hx)
    cases hn : fs (n ++ bk) with
    | none =>
      simp only [renameOp, hn] at h ⊢
      exact ih fs htail h
    | some d =>
      simp only [renameOp, hn] at h ⊢
      have h1 : p ≠ n ++ bk := (hC n (List.mem_cons_self n ns)).1
      have h2 : n ≠ p ++ bk := (hC n (List.mem_cons_self n ns)).2
      by_cases hpn : n = p
      · exfalso
        subst hpn
        have hfs0 : (fun q => if q = n then some d
            else if q = n ++ bk then none else fs q) (n ++ bk) = none := by
          have h4 : n ++ bk ≠ n := fun h9 => ne_self_append_bk n h9.symm
          simp [h4]
        have h9 := restore_keeps_bk_none n ns
          (fun q => if q = n then some d
            else if q = n ++ bk then none else fs q)
          (fun x hx => (htail x hx).2) hfs0
        rw [h9] at h
        exact Option.noConfusion h
      · have h3 : p ++ bk ≠ n := fun hq => h2 hq.symm
        have h4 : p ++ bk ≠ n ++ bk := fun hq =>
          hpn (append_bk_cancel hq).symm
        have h5 : p ≠ n := fun hq => hpn hq.symm
        obtain ⟨ha, hb⟩ := ih (fun q => if q = n then some d
            else if q = n ++ bk then none else fs q) htail h
        constructor
        · simpa [h3, h4] using ha
        · rw [hb]
          simp [h5, h1]

/-- Helper: during restore, a path whose backup slot is empty is
untouched (its own restore fails, others name different slots). -/
theorem restore_keeps_p (p : Str) :
    ∀ (ns : List Str) (fs : Fs),
      (∀ n ∈ ns, n ≠ p ++ bk ∧ p ≠ n ++ bk) → fs (p ++ bk) = none →
      (RevertFiles fs ns).1 p = fs p ∧
      (RevertFiles fs ns).1 (p ++ bk) = none := by
  intro ns
  induction ns with
  | nil => intro fs _ hp; exact ⟨rfl, hp⟩
  | cons n ns ih =>
    intro fs hC hp
    simp only [RevertFiles]
    have htail : ∀ x ∈ ns, x ≠ p ++ bk ∧ p ≠ x ++ bk :=
      fun x hx => hC x (List.mem_cons_of_mem n hx)
    cases hn : fs (n ++ bk) with
    | none =>
      simp only [renameOp, hn]
      exact ih fs htail hp
    | some d =>
      simp only [renameOp, hn]
      have h1 : n ≠ p ++ bk := (hC n (List.mem_cons_self n ns)).1
      have h2 : p ≠ n ++ bk := (hC n (List.mem_cons_self n ns)).2
      by_cases hpn : n = p
      · exfalso
        rw [hpn, hp] at hn
        exact Option.noConfusion hn
      · have h5 : p ≠ n := fun hq => hpn hq.symm
        have h3 : p ++ bk ≠ n := fun hq => h1 hq.symm
        have h4 : p ++ bk ≠ n ++ bk := fun hq =>
          hpn (append_bk_cancel hq).symm
        have hfs0 : (fun q => if q = n then some d
            else if q = n ++ bk then none else fs q) (p ++ bk) = none := by
          simp [h3, h4, hp]
        obtain ⟨ha, hb⟩ := ih (fun q => if q = n then some d
            else if q = n ++ bk then none else fs q) htail hfs0
        refine ⟨?_, hb⟩
        rw [ha]
        simp [h5, h2]

/-- C7 amended: for a batch in which no listed path equals another
listed path with the backup suffix appended, every position whose
quarantine rename and restore rename both succeed has its path's
original contents restored, even when renames of other files in the
batch fail.  (Without the no-collision condition the property fails: os
rename overwrites, see the counterexample.) -/
theorem C7_amended :
    ∀ (fs : Fs) (names : List Str) (i : Nat), i < names.length →
      (∀ a ∈ names, ∀ b ∈ names, a ≠ b ++ bk) →
      (RenameFiles fs names).2.getD i false = true →
      (RevertFiles (RenameFiles fs names).1 names).2.getD i false = true →
      (RevertFiles (RenameFiles fs names).1 names).1 (names.getD i []) =
        fs (names.getD i []) := by
  intro fs names i hi hC hq hr
  obtain ⟨A, p, B, hnames, hlenA⟩ :
      ∃ A p B, names = A ++ p :: B ∧ A.length = i :=
    ⟨names.take i, names.getD i [], names.drop (i + 1),
     (take_getD_drop names i hi []).symm,
     by rw [List.length_take]; omega⟩
  subst hnames
  have hp : (A ++ p :: B).getD i [] = p := by
    rw [← hlenA, getD_append_cons]
  rw [hp]
  -- membership facts
  have hmp : p ∈ A ++ p :: B :=
    List.mem_append_right A (List.mem_cons_self p B)
  have hmA : ∀ n ∈ A, n ∈ A ++ p :: B := fun n hn => List.mem_append_left _ hn
  have hmB : ∀ n ∈ B, n ∈ A ++ p :: B :=
    fun n hn => List.mem_append_right A (List.mem_cons_of_mem p hn)
  -- structure of the quarantine pass
  have eqQ := RenameFiles_append A (p :: B) fs
  have eqQ1 : (RenameFiles fs (A ++ p :: B)).1 =
      (RenameFiles (renameOp (RenameFiles fs A).1 p (p ++ bk)).1 B).1 := by
    rw [eqQ]
    simp [RenameFiles]
  have eqQ2 : (RenameFiles fs (A ++ p :: B)).2 =
      (RenameFiles fs A).2 ++
        (renameOp (RenameFiles fs A).1 p (p ++ bk)).2 ::
        (RenameFiles (renameOp (RenameFiles fs A).1 p (p ++ bk)).1 B).2 := by
    rw [eqQ]
    simp [RenameFiles]
  -- the quarantine flag at position i
  rw [eqQ2] at hq
  have hlenQ : (RenameFiles fs A).2.length = i := by
    rw [RenameFiles_sndLen]; exact hlenA
  rw [← hlenQ, getD_append_cons] at hq
  -- the quarantine of p succeeded
  obtain ⟨c, hS1p⟩ : ∃ c, (RenameFiles fs A).1 p = some c := by
    cases hx : (RenameFiles fs A).1 p with
    | none => rw [renameOp, hx] at hq; exact Bool.noConfusion hq
    | some c => exact ⟨c, rfl⟩
  have hfsp : fs p = some c :=
    quarantine_reflects_some p c A fs
      (fun n hn => hC p hmp n (hmA n hn)) hS1p
  have hS2 : (renameOp (RenameFiles fs A).1 p (p ++ bk)).1 =
      fun q => if q = p ++ bk then some c
        else if q = p then none else (RenameFiles fs A).1 q := by
    rw [renameOp, hS1p]
  -- after quarantining the suffix batch B, p is gone and its backup
  -- slot holds c
  have hS3 := quarantine_keeps_pair p B
    (renameOp (RenameFiles fs A).1 p (p ++ bk)).1
    (fun n hn => ⟨hC p hmp n (hmB n hn),
      fun h9 => hC n (hmB n hn) p hmp h9.symm⟩)
    (by rw [hS2]; simp [ne_self_append_bk p])
  have hS3pb : (RenameFiles (renameOp (RenameFiles fs A).1 p (p ++ bk)).1
      B).1 (p ++ bk) = some c := by
    rw [hS3.2, hS2]
    simp
  -- structure of the restore pass
  rw [eqQ1] at hr ⊢
  have eqR := RevertFiles_append A (p :: B)
    (RenameFiles (renameOp (RenameFiles fs A).1 p (p ++ bk)).1 B).1
  have eqR1 : (RevertFiles
      (RenameFiles (renameOp (RenameFiles fs A).1 p (p ++ bk)).1 B).1
      (A ++ p :: B)).1 =
      (RevertFiles (renameOp (RevertFiles
        (RenameFiles (renameOp (RenameFiles fs A).1 p (p ++ bk)).1 B).1
        A).1 (p ++ bk) p).1 B).1 := by
    rw [eqR]
    simp [RevertFiles]
  have eqR2 : (RevertFiles
      (RenameFiles (renameOp (RenameFiles fs A).1 p (p ++ bk)).1 B).1
      (A ++ p :: B)).2 =
      (RevertFiles
        (RenameFiles (renameOp (RenameFiles fs A).1 p (p ++ bk)).1 B).1
        A).2 ++
      (renameOp (RevertFiles
        (RenameFiles (renameOp (RenameFiles fs A).1 p (p ++ bk)).1 B).1
        A).1 (p ++ bk) p).2 ::
      (RevertFiles (renameOp (RevertFiles
        (RenameFiles (renameOp (RenameFiles fs A).1 p (p ++ bk)).1 B).1
        A).1 (p ++ bk) p).1 B).2 := by
    rw [eqR]
    simp [RevertFiles]
  rw [eqR2] at hr
  have hlenR : (RevertFiles
      (RenameFiles (renameOp (RenameFiles fs A).1 p (p ++ bk)).1 B).1
      A).2.length = i := by
    have : ∀ (ns : List Str) (g : Fs), (RevertFiles g ns).2.length =
        ns.length := by
      intro ns
      induction ns with
      | nil => intro g; rfl
      | cons n ns ih => intro g; simp [RevertFiles, ih]
    rw [this]; exact hlenA
  rw [← hlenR, getD_append_cons] at hr
  -- the restore of p succeeded
  obtain ⟨c2, hS4pb⟩ : ∃ c2, (RevertFiles
      (RenameFiles (renameOp (RenameFiles fs A).1 p (p ++ bk)).1 B).1
      A).1 (p ++ bk) = some c2 := by
    cases hx : (RevertFiles
        (RenameFiles (renameOp (RenameFiles fs A).1 p (p ++ bk)).1 B).1
        A).1 (p ++ bk) with
    | none => rw [renameOp, hx] at hr; exact Bool.noConfusion hr
    | some c2 => exact ⟨c2, rfl⟩
  have hrefl := restore_reflects p c2 A
    (RenameFiles (renameOp (RenameFiles fs A).1 p (p ++ bk)).1 B).1
    (fun n hn => ⟨hC p hmp n (hmA n hn), hC n (hmA n hn) p hmp⟩) hS4pb
  have hc2 : c2 = c := by
    have h9 := hrefl.1
    rw [hS3pb] at h9
    exact (Option.some.inj h9).symm
  have hS5 : (renameOp (RevertFiles
      (RenameFiles (renameOp (RenameFiles fs A).1 p (p ++ bk)).1 B).1
      A).1 (p ++ bk) p).1 =
      fun q => if q = p then some c2
        else if q = p ++ bk then none else (RevertFiles
          (RenameFiles (renameOp (RenameFiles fs A).1 p (p ++ bk)).1 B).1
          A).1 q := by
    rw [renameOp, hS4pb]
  rw [eqR1]
  have hkeep := restore_keeps_p p B
    (renameOp (RevertFiles
      (RenameFiles (renameOp (RenameFiles fs A).1 p (p ++ bk)).1 B).1
      A).1 (p ++ bk) p).1
    (fun n hn => ⟨hC n (hmB n hn) p hmp, hC p hmp n (hmB n hn)⟩)
    (by
      rw [hS5]
      have h9 : p ++ bk ≠ p := fun h8 => ne_self_append_bk p h8.symm
      simp [h9])
  rw [hkeep.1, hS5]
  simp [hc2, hfsp]

/-- C7 amended, witness: in the collision-free batch [a, b] both renames
of the first path succeed in both passes and its contents survive the
round trip. -/
theorem C7_amended_witness :
    (RevertFiles (RenameFiles fsW namesW).1 namesW).1 (namesW.getD 0 []) =
      fsW (namesW.getD 0 []) :=
  C7_amended fsW namesW 0 (by decide) (by decide) (by decide) (by decide)

end Grc
